import Mathlib

/-! # BMP24bppTutorial.c: a 24 bit-per-pixel BMP writer

Shallow embedding of `src/BMP24bppTutorial.c` and theorems about it.

Conventions of the embedding:

* `unsigned int` values are natural numbers; every `unsigned int` operation that can
  leave the 32-bit range is reduced modulo `UINT_RANGE`; `size_t` is 64 bits wide;
* a pointer is `none` for `NULL`, and otherwise the sequence of objects it addresses; a
  non-null `clr **` may address no row pointer at all (a block of size zero, as
  `malloc(0)` may return);
* the load `*arr` of the guards `if (!arr || !*arr)` is outside the block when the block
  has no row pointer: its value, which C leaves indeterminate, is the field `past` of the
  block, `load_first` tells that the load is outside, and the function goes on with the
  value, which it only compares with `NULL`;
* every other load or store outside the addressed objects (those of the loops) makes
  the function return `none`; it returns `some` of its result otherwise;
* the output file is the list of the bytes written to it, in order; scalars are laid
  out least significant byte first, and the structs are packed (`#pragma pack(push, 1)`).
-/

namespace BMP24

/-! ## Machine integers -/

/-- Number of values of an `unsigned int`: 2^32. -/
def UINT_RANGE : Nat := 4294967296

/-- Number of values of a `size_t`: 2^64. -/
def SIZE_RANGE : Nat := 18446744073709551616

/-! ## Types of the program -/

/-- The struct `point`: a pixel coordinate. -/
structure pnt where
  x : Nat
  y : Nat
deriving DecidableEq

/-- The struct `dimension`. -/
structure dim where
  width : Nat
  height : Nat
deriving DecidableEq

/-- The struct `color`: blue, green, red, one `unsigned char` each, in this order. -/
structure clr where
  b : Nat
  g : Nat
  r : Nat
deriving DecidableEq

/-- The struct `bmp_file_header`; `header_field_0` and `header_field_1` are the two
elements of `unsigned char header_field[2]`. -/
structure file_header where
  header_field_0 : Nat
  header_field_1 : Nat
  file_size : Nat
  reserved_1 : Nat
  reserved_2 : Nat
  array_offset : Nat
deriving DecidableEq

/-- The struct `bmp_info_header` (BITMAPINFOHEADER). -/
structure info_header where
  header_size : Nat
  width : Nat
  height : Nat
  color_panes : Nat
  bpp : Nat
  compression : Nat
  image_size : Nat
  h_res : Nat
  v_res : Nat
  num_clr_palette : Nat
  num_imp_clrs : Nat
deriving DecidableEq

/-- Value of `sizeof(file_header)` for the packed struct: 2*1 + 4 + 2 + 2 + 4. -/
def sizeof_file_header : Nat := 2 * 1 + 4 + 2 + 2 + 4

/-- Value of `sizeof(info_header)` for the packed struct: 3*4 + 2*2 + 6*4. -/
def sizeof_info_header : Nat := 3 * 4 + 2 * 2 + 6 * 4

/-- A `clr *` that addresses a row: `none` is `NULL`, `some l` addresses the pixels `l`. -/
abbrev row_ptr := Option (List clr)

/-- The block that a non-null `clr **` addresses: `rows`, the row pointers in it, the
one pointed at first (none when the block has size zero), and `past`, the indeterminate
value that a load of the row pointer just past an empty block yields. -/
structure arr_block where
  rows : List row_ptr
  past : row_ptr
deriving DecidableEq

/-- A `clr **`: `none` is `NULL`, `some a` addresses the block `a`. -/
abbrev arr_ptr := Option arr_block

/-- The load `*arr` of the guards `if (!arr || !*arr)`, for a non-null `arr`: the row
pointer loaded, and whether the load is inside the block that `arr` addresses. With a row
pointer in the block it loads the first one; with none it loads outside the block and
gets `past`. -/
def load_first (a : arr_block) : row_ptr × Bool :=
  match a.rows with
  | [] => (a.past, false)
  | row :: _ => (row, true)

/-! ## The drawing functions -/

/-- The inner loop `for (...; x < top_x; ++x, ++row) *row = col;` of `fill_background`
and `draw_square`, with `n = top_x - x` iterations left and `row` addressing column `x`.
A store through `NULL` or past the end of the row gives `none`. -/
def store_cols (col : clr) : Nat → Nat → row_ptr → Option row_ptr
  | 0, _, row => some row
  | _ + 1, _, none => none
  | n + 1, x, some l =>
    if x < l.length then store_cols col n (x + 1) (some (l.set x col)) else none

/-- The outer loop `for (...; y < top_y; ++y, ++arr) { row = *arr; row += x0; ... }` of
`fill_background` (where `x0 = 0`) and `draw_square`, with `n = top_y - y` iterations
left and `arr` addressing row pointer `y`; each iteration runs the inner loop for `nx`
columns from column `x0`. Reading a row pointer past the last one gives `none`. -/
def store_rows (col : clr) (x0 nx : Nat) : Nat → Nat → List row_ptr → Option (List row_ptr)
  | 0, _, arr => some arr
  | n + 1, y, arr =>
    match arr[y]? with
    | none => none
    | some row =>
      match store_cols col nx x0 row with
      | none => none
      | some row' => store_rows col x0 nx n (y + 1) (arr.set y row')

/-- The function `fill_background`: the returned `int` and the buffer afterwards. -/
def fill_background (arr : arr_ptr) (col : clr) (dims : dim) : Option (Int × arr_ptr) :=
  match arr with
  | none => some (1, arr)
  | some a =>
    match (load_first a).1 with
    | none => some (1, arr)
    | some _ =>
      match store_rows col 0 (dims.width - 0) (dims.height - 0) 0 a.rows with
      | none => none
      | some rows' => some (0, some { rows := rows', past := a.past })

/-- The function `draw_square`: the returned `bool` and the buffer afterwards. The two
sums `origin.x + side_len` and `origin.y + side_len` are `unsigned int` sums. -/
def draw_square (origin : pnt) (side_len : Nat) (arr : arr_ptr) (col : clr)
    (image_dims : dim) : Option (Bool × arr_ptr) :=
  match arr with
  | none => some (false, arr)
  | some a =>
    match (load_first a).1 with
    | none => some (false, arr)
    | some _ =>
      if origin.x ≥ image_dims.width ∨ origin.y ≥ image_dims.height then some (false, arr)
      else
        let top : pnt :=
          { x := if (origin.x + side_len) % UINT_RANGE > image_dims.width
                 then image_dims.width else (origin.x + side_len) % UINT_RANGE,
            y := if (origin.y + side_len) % UINT_RANGE > image_dims.height
                 then image_dims.height else (origin.y + side_len) % UINT_RANGE }
        match store_rows col origin.x (top.x - origin.x) (top.y - origin.y) origin.y
            a.rows with
        | none => none
        | some rows' => some (true, some { rows := rows', past := a.past })

/-- The function `draw_center_square`. The differences `image_dims.width - side_len` and
`image_dims.height - side_len` are `unsigned int` differences of two `unsigned int`
values (`side_len < UINT_RANGE`), divided by two afterwards. -/
def draw_center_square (arr : arr_ptr) (col : clr) (side_len : Nat) (image_dims : dim) :
    Option (Bool × arr_ptr) :=
  match arr with
  | none => some (true, arr)
  | some a =>
    match (load_first a).1 with
    | none => some (true, arr)
    | some _ =>
      draw_square
        { x := (image_dims.width + UINT_RANGE - side_len) % UINT_RANGE / 2,
          y := (image_dims.height + UINT_RANGE - side_len) % UINT_RANGE / 2 }
        side_len arr col image_dims

/-! ## `main`: the headers -/

/-- The local `rem` of `main`: `(width*3) % 4`, an `unsigned int`, stored in an
`unsigned char`. -/
def rem (width : Nat) : Nat := (width * 3) % UINT_RANGE % 4 % 256

/-- The local `padding` of `main`: `rem ? 4 - rem : 0` (an `int`; `rem` is below 4, so
that the difference is not negative). -/
def padding (width : Nat) : Nat := if rem width ≠ 0 then 4 - rem width else 0

/-- The local `fh` of `main` once all its fields are set. In `file_size`, the product
`height*(width*3 + padding)` is an `unsigned int`, the sum with the two `sizeof` is a
`size_t`, and the assignment converts it to `unsigned int`. -/
def fh (width height : Nat) : file_header :=
  { header_field_0 := 66,
    header_field_1 := 77,
    file_size :=
      (sizeof_file_header + sizeof_info_header
        + height * (((width * 3) % UINT_RANGE + padding width) % UINT_RANGE) % UINT_RANGE)
        % SIZE_RANGE % UINT_RANGE,
    reserved_1 := 0,
    reserved_2 := 0,
    array_offset := (sizeof_file_header + sizeof_info_header) % SIZE_RANGE % UINT_RANGE }

/-- The local `ih` of `main` once all its fields are set. -/
def ih (width height : Nat) : info_header :=
  { header_size := sizeof_info_header % UINT_RANGE,
    width := width,
    height := height,
    color_panes := 1,
    bpp := 24,
    compression := 0,
    image_size := 0,
    h_res := 0,
    v_res := 0,
    num_clr_palette := 0,
    num_imp_clrs := 0 }

/-! ## `main`: writing the file -/

/-- The `k` bytes of an unsigned scalar in memory, least significant byte first. -/
def le_bytes : Nat → Nat → List Nat
  | 0, _ => []
  | k + 1, n => n % 256 :: le_bytes k (n / 256)

/-- Bytes of a `file_header` in memory: its fields in order, nothing between them. -/
def file_header_bytes (h : file_header) : List Nat :=
  [h.header_field_0, h.header_field_1] ++ le_bytes 4 h.file_size
    ++ le_bytes 2 h.reserved_1 ++ le_bytes 2 h.reserved_2 ++ le_bytes 4 h.array_offset

/-- Bytes of an `info_header` in memory: its fields in order, nothing between them. -/
def info_header_bytes (h : info_header) : List Nat :=
  le_bytes 4 h.header_size ++ le_bytes 4 h.width ++ le_bytes 4 h.height
    ++ le_bytes 2 h.color_panes ++ le_bytes 2 h.bpp ++ le_bytes 4 h.compression
    ++ le_bytes 4 h.image_size ++ le_bytes 4 h.h_res ++ le_bytes 4 h.v_res
    ++ le_bytes 4 h.num_clr_palette ++ le_bytes 4 h.num_imp_clrs

/-- Bytes of a `clr` in memory: `b`, `g`, `r`. -/
def clr_bytes (c : clr) : List Nat := [c.b, c.g, c.r]

/-- The local array `pad` of `main`. -/
def pad : List Nat := [0, 0, 0]

/-- Bytes written by `fwrite(*cpy, sizeof(clr), width, fp)`: the first `width` pixels of
the row; `none` when the row pointer is `NULL` or addresses fewer pixels. -/
def fwrite_row (width : Nat) : row_ptr → Option (List Nat)
  | none => none
  | some l => if width ≤ l.length then some ((l.take width).flatMap clr_bytes) else none

/-- Bytes written by `fwrite(pad, sizeof(unsigned char), padding, fp)`: the first
`padding` bytes of `pad`; `none` when `pad` has fewer. -/
def fwrite_pad (padding : Nat) : Option (List Nat) :=
  if padding ≤ pad.length then some (pad.take padding) else none

/-- The loop `for (unsigned int y = 0; y < height; ++y, ++cpy)` that writes the rows,
with `n = height - y` iterations left and `cpy` addressing row pointer `y`: the bytes
it writes, in order. -/
def write_rows (width padding : Nat) : Nat → Nat → List row_ptr → Option (List Nat)
  | 0, _, _ => some []
  | n + 1, y, array =>
    match array[y]? with
    | none => none
    | some row =>
      match fwrite_row width row, fwrite_pad padding with
      | some px, some pd =>
        match write_rows width padding n (y + 1) array with
        | none => none
        | some rest => some (px ++ pd ++ rest)
      | _, _ => none

/-- The row pointers that a `clr **` addresses: none for `NULL`. -/
def rows_of : arr_ptr → List row_ptr
  | none => []
  | some a => a.rows

/-- The part of `main` that writes the file, from the two `fwrite` of the headers to the
end of the loop over the rows, for the dimensions `width`, `height` and the pixel array
`array`: the bytes of the file, in order. -/
def main_write (width height : Nat) (array : arr_ptr) : Option (List Nat) :=
  match write_rows width (padding width) (height - 0) 0 (rows_of array) with
  | none => none
  | some rows =>
    some (file_header_bytes (fh width height) ++ info_header_bytes (ih width height) ++ rows)

/-! ## `main`: the whole run -/

/-- Value of `sizeof(clr*)`: a pointer is 8 bytes wide. -/
def sizeof_clr_ptr : Nat := 8

/-- Value of `sizeof(clr)` for the packed struct: three `unsigned char`. -/
def sizeof_clr : Nat := 1 + 1 + 1

/-- What the C library does during a run of `main`, which the source does not fix:
`malloc_null k size` tells whether call number `k` of `malloc` (call 0 allocates the
array of row pointers, call `y + 1` allocates row `y`), asking for `size` bytes, returns
`NULL` (for `size = 0` the C standard allows both a null pointer and a pointer to a
block of size zero); `junk y x` is the indeterminate value that pixel `x` of row `y`
holds when the row has just been allocated; `past` is the indeterminate value that a
load of the row pointer just past an empty block of row pointers yields; `fopen_null`
tells whether `fopen` returns `NULL`. -/
structure libc where
  malloc_null : Nat → Nat → Bool
  junk : Nat → Nat → clr
  past : row_ptr
  fopen_null : Bool

/-- The loop `for (unsigned int y = 0; y < height; ++y, ++cpy)` of `main` that allocates
the rows, with `n = height - y` iterations left: the rows from row `y` on, or `none`
when a `malloc` returned `NULL` (`main` then returns 1). -/
def alloc_rows (lib : libc) (width : Nat) : Nat → Nat → Option (List (List clr))
  | 0, _ => some []
  | n + 1, y =>
    if lib.malloc_null (y + 1) (width * sizeof_clr % SIZE_RANGE) then none
    else
      match alloc_rows lib width n (y + 1) with
      | none => none
      | some rest => some ((List.range width).map (lib.junk y) :: rest)

/-- The function `main`, for the values `width`, `height`, `bg_clr`, `sqr_clr` and
`sqr_side_len` of the globals of these names and for a behaviour `lib` of the library:
the value returned and the bytes written to the file. The values returned by
`fill_background` and `draw_center_square` are dropped, as in the source. When `height`
is 0 and `malloc` returns a pointer to a block of size zero, `array` addresses no row
pointer, and the guards of `fill_background`, `draw_center_square` and `draw_square`
load `*arr` outside that block. -/
def main (width height : Nat) (bg_clr sqr_clr : clr) (sqr_side_len : Nat) (lib : libc) :
    Option (Int × List Nat) :=
  let image_dims : dim := { width := width, height := height }
  if lib.malloc_null 0 (height * sizeof_clr_ptr % SIZE_RANGE) then some (1, [])
  else
    match alloc_rows lib width (height - 0) 0 with
    | none => some (1, [])
    | some rows =>
      match fill_background (some { rows := rows.map some, past := lib.past }) bg_clr
          image_dims with
      | none => none
      | some (_, array) =>
        match draw_center_square array sqr_clr sqr_side_len image_dims with
        | none => none
        | some (_, array') =>
          if lib.fopen_null then some (1, [])
          else
            match main_write width height array' with
            | none => none
            | some out => some (0, out)

/-! ## Buffers -/

/-- The row pointers of a buffer whose rows are `rows`: each row allocated. -/
def row_ptrs (rows : List (List clr)) : List row_ptr := rows.map some

/-- The `clr **` of a buffer whose rows are `rows`: a non-null pointer to the block of
its row pointers. The value past the block, which is loaded from only when there is no
row, is taken to be `NULL`. -/
def buffer (rows : List (List clr)) : arr_ptr := some { rows := row_ptrs rows, past := none }

/-- A buffer of dimensions `dims`: exactly `dims.height` rows, each of exactly
`dims.width` pixels. -/
def has_dims (rows : List (List clr)) (dims : dim) : Prop :=
  rows.length = dims.height ∧ ∀ row ∈ rows, row.length = dims.width

/-- Pixel `(x, y)` of a buffer, when it has one. -/
def pixel (rows : List (List clr)) (x y : Nat) : Option clr :=
  match rows[y]? with
  | none => none
  | some row => row[x]?

/-! ## Arithmetic of the headers -/

theorem rem_eq (w : Nat) : rem w = 3 * w % 4 := by
  unfold rem UINT_RANGE
  have h1 : w * 3 % 4294967296 % 4 = w * 3 % 4 := Nat.mod_mod_of_dvd _ (by decide)
  rw [h1, Nat.mod_eq_of_lt (Nat.lt_of_lt_of_le (Nat.mod_lt _ (by decide)) (by decide)),
    Nat.mul_comm]

theorem padding_le (w : Nat) : padding w ≤ 3 := by
  unfold padding; rw [rem_eq]; split <;> omega

theorem file_size_mod (w h : Nat) :
    (fh w h).file_size = (54 + h * (3 * w + padding w)) % UINT_RANGE := by
  have e : ((w * 3) % UINT_RANGE + padding w) % UINT_RANGE
      = (3 * w + padding w) % UINT_RANGE := by
    unfold UINT_RANGE; omega
  have e2 : h * ((3 * w + padding w) % UINT_RANGE) % UINT_RANGE
      = h * (3 * w + padding w) % UINT_RANGE := by
    rw [Nat.mul_mod, Nat.mod_mod, ← Nat.mul_mod]
  show (sizeof_file_header + sizeof_info_header
        + h * (((w * 3) % UINT_RANGE + padding w) % UINT_RANGE) % UINT_RANGE)
        % SIZE_RANGE % UINT_RANGE = _
  rw [e, e2]
  generalize h * (3 * w + padding w) = m
  unfold sizeof_file_header sizeof_info_header SIZE_RANGE UINT_RANGE
  omega

/-! ## Bytes of the file -/

theorem le_bytes_length (k n : Nat) : (le_bytes k n).length = k := by
  induction k generalizing n with
  | zero => rfl
  | succ k ihk => simp [le_bytes, ihk]

theorem le_bytes_four (n : Nat) :
    le_bytes 4 n = [n % 256, n / 256 % 256, n / 65536 % 256, n / 16777216 % 256] := by
  simp [le_bytes, Nat.div_div_eq_div_mul]

theorem file_header_bytes_length (h : file_header) : (file_header_bytes h).length = 14 := by
  simp [file_header_bytes, le_bytes_length]

theorem info_header_bytes_length (h : info_header) : (info_header_bytes h).length = 40 := by
  simp [info_header_bytes, le_bytes_length]

theorem flatMap_clr_bytes_length (l : List clr) :
    (l.flatMap clr_bytes).length = 3 * l.length := by
  induction l with
  | nil => rfl
  | cons c l ihl => simp [List.flatMap_cons, clr_bytes, ihl]; omega

theorem flatMap_clr_bytes_getElem (l : List clr) (x : Nat) (c : clr) (h : l[x]? = some c) :
    (l.flatMap clr_bytes)[3 * x]? = some c.b ∧ (l.flatMap clr_bytes)[3 * x + 1]? = some c.g
      ∧ (l.flatMap clr_bytes)[3 * x + 2]? = some c.r := by
  induction l generalizing x with
  | nil => simp at h
  | cons d l ihl =>
    cases x with
    | zero =>
      simp at h
      subst h
      simp [List.flatMap_cons, clr_bytes]
    | succ x =>
      simp at h
      have e0 : 3 * (x + 1) = 3 * x + 3 := by omega
      have e1 : 3 * x + 3 + 1 = 3 * x + 1 + 3 := by omega
      have e2 : 3 * x + 3 + 2 = 3 * x + 2 + 3 := by omega
      rw [e0, e1, e2]
      simpa [List.flatMap_cons, clr_bytes] using ihl x h

theorem pad_take (p : Nat) (hp : p ≤ 3) : pad.take p = List.replicate p 0 := by
  have : p = 0 ∨ p = 1 ∨ p = 2 ∨ p = 3 := by omega
  rcases this with h | h | h | h <;> subst h <;> rfl

theorem row_ptrs_getElem (rows : List (List clr)) (y : Nat) :
    (row_ptrs rows)[y]? = (rows[y]?).map some := by
  simp [row_ptrs]

/-- Bytes that the loop over the rows writes for a buffer whose rows have `width`
pixels: `n` blocks of `3 * width + p` bytes, block `k` holding the pixels of row
`y + k` and then `p` zero bytes. -/
theorem write_rows_buffer (width p : Nat) (hp : p ≤ 3) (rows : List (List clr))
    (hrow : ∀ row ∈ rows, row.length = width) :
    ∀ n y, y + n ≤ rows.length →
      ∃ out, write_rows width p n y (row_ptrs rows) = some out
        ∧ out.length = n * (3 * width + p)
        ∧ ∀ k row, k < n → rows[y + k]? = some row → ∀ j, j < 3 * width + p →
            out[k * (3 * width + p) + j]? = (row.flatMap clr_bytes ++ List.replicate p 0)[j]? := by
  intro n
  induction n with
  | zero => intro y _; exact ⟨[], rfl, by simp, fun k row hk => absurd hk (by omega)⟩
  | succ n ihn =>
    intro y hy
    have hylt : y < rows.length := by omega
    obtain ⟨rest, hrest, hlen, hget⟩ := ihn (y + 1) (by omega)
    have hr : rows[y]? = some rows[y] := List.getElem?_eq_getElem hylt
    have hw : (rows[y]).length = width := hrow _ (List.getElem_mem hylt)
    have hpx : fwrite_row width (some rows[y]) = some ((rows[y]).flatMap clr_bytes) := by
      show (if width ≤ (rows[y]).length then some (((rows[y]).take width).flatMap clr_bytes)
        else none) = _
      rw [if_pos (Nat.le_of_eq hw.symm), List.take_of_length_le (Nat.le_of_eq hw)]
    have hpd : fwrite_pad p = some (List.replicate p 0) := by
      simp [fwrite_pad, pad_take p hp]
      simpa [pad] using hp
    have hblock : ((rows[y]).flatMap clr_bytes ++ List.replicate p 0).length = 3 * width + p := by
      rw [List.length_append, flatMap_clr_bytes_length, List.length_replicate, hw]
    refine ⟨(rows[y]).flatMap clr_bytes ++ List.replicate p 0 ++ rest, ?_, ?_, ?_⟩
    · simp [write_rows, row_ptrs_getElem, hr, hpx, hpd, hrest]
    · rw [List.length_append, hblock, hlen]; ring
    · intro k row hk hrowk j hj
      cases k with
      | zero =>
        simp only [Nat.add_zero] at hrowk
        rw [hr] at hrowk
        cases hrowk
        rw [Nat.zero_mul, Nat.zero_add, List.getElem?_append_left (by rw [hblock]; exact hj)]
      | succ k =>
        rw [List.getElem?_append_right (by rw [hblock]; nlinarith)]
        rw [hblock]
        have e : (k + 1) * (3 * width + p) + j - (3 * width + p) = k * (3 * width + p) + j := by
          rw [Nat.add_mul, Nat.one_mul]; omega
        rw [e]
        exact hget k row (by omega) (by rw [← hrowk]; congr 1; omega) j hj

/-- File written for a block that holds the rows of a buffer of dimensions `(w, h)`: the
two headers, then the bytes of the loop over the rows. -/
theorem main_write_block (w h : Nat) (rows : List (List clr)) (p : row_ptr)
    (hd : has_dims rows ⟨w, h⟩) :
    ∃ px, main_write w h (some { rows := row_ptrs rows, past := p })
          = some (file_header_bytes (fh w h) ++ info_header_bytes (ih w h) ++ px)
      ∧ px.length = h * (3 * w + padding w)
      ∧ ∀ y row, y < h → rows[y]? = some row → ∀ j, j < 3 * w + padding w →
          px[y * (3 * w + padding w) + j]?
            = (row.flatMap clr_bytes ++ List.replicate (padding w) 0)[j]? := by
  obtain ⟨hlen, hrow⟩ := hd
  simp only at hlen hrow
  obtain ⟨px, hpx, hl, hget⟩ :=
    write_rows_buffer w (padding w) (padding_le w) rows hrow h 0 (by omega)
  refine ⟨px, ?_, hl, ?_⟩
  · simp [main_write, rows_of, hpx]
  · intro y row hy hr j hj
    exact hget y row hy (by rw [Nat.zero_add]; exact hr) j hj

/-- File written for a buffer of dimensions `(w, h)`: the two headers, then the bytes of
the loop over the rows. -/
theorem main_write_buffer (w h : Nat) (rows : List (List clr)) (hd : has_dims rows ⟨w, h⟩) :
    ∃ px, main_write w h (buffer rows)
          = some (file_header_bytes (fh w h) ++ info_header_bytes (ih w h) ++ px)
      ∧ px.length = h * (3 * w + padding w)
      ∧ ∀ y row, y < h → rows[y]? = some row → ∀ j, j < 3 * w + padding w →
          px[y * (3 * w + padding w) + j]?
            = (row.flatMap clr_bytes ++ List.replicate (padding w) 0)[j]? :=
  main_write_block w h rows none hd

/-! ## The loops of the drawing functions -/

/-- The inner loop on a row that holds the `n` columns from column `x` on: it stores
`col` in these columns and nowhere else. -/
theorem store_cols_some (col : clr) : ∀ n x (l : List clr), x + n ≤ l.length →
    ∃ l', store_cols col n x (some l) = some (some l') ∧ l'.length = l.length
      ∧ ∀ i, l'[i]? = if x ≤ i ∧ i < x + n then some col else l[i]? := by
  intro n
  induction n with
  | zero => intro x l _; exact ⟨l, rfl, rfl, fun i => by rw [if_neg (by omega)]⟩
  | succ n ihn =>
    intro x l hx
    obtain ⟨l', hs, hl, hg⟩ := ihn (x + 1) (l.set x col) (by rw [List.length_set]; omega)
    refine ⟨l', ?_, by rw [hl, List.length_set], ?_⟩
    · show (if x < l.length then store_cols col n (x + 1) (some (l.set x col)) else none) = _
      rw [if_pos (by omega), hs]
    · intro i
      rw [hg i, List.getElem?_set]
      split_ifs <;> first | rfl | (exfalso; omega)

theorem pixel_set (rows : List (List clr)) (y : Nat) (l : List clr) (hy : y < rows.length)
    (x j : Nat) :
    pixel (rows.set y l) x j = if y = j then l[x]? else pixel rows x j := by
  unfold pixel
  rw [List.getElem?_set]
  split_ifs <;> rfl

/-- The outer loop on a buffer that holds the `n` rows from row `y` on, each row holding
the `nx` columns from column `x0` on: it stores `col` in these columns of these rows
and nowhere else, and leaves the length of every row as it is. -/
theorem store_rows_buffer (col : clr) (x0 nx : Nat) : ∀ n y (rows : List (List clr)),
    y + n ≤ rows.length → (∀ (j : Nat) (row : List clr), rows[j]? = some row → x0 + nx ≤ row.length) →
    ∃ rows', store_rows col x0 nx n y (row_ptrs rows) = some (row_ptrs rows')
      ∧ rows'.length = rows.length
      ∧ (∀ j : Nat, (rows'[j]?).map List.length = (rows[j]?).map List.length)
      ∧ ∀ x j : Nat, pixel rows' x j
          = if (y ≤ j ∧ j < y + n) ∧ (x0 ≤ x ∧ x < x0 + nx) then some col
            else pixel rows x j := by
  intro n
  induction n with
  | zero =>
    intro y rows _ _
    exact ⟨rows, rfl, rfl, fun _ => rfl, fun x j => by rw [if_neg (by omega)]⟩
  | succ n ihn =>
    intro y rows hy hcols
    have hylt : y < rows.length := by omega
    have hr : rows[y]? = some rows[y] := List.getElem?_eq_getElem hylt
    obtain ⟨l', hs, hl, hg⟩ := store_cols_some col nx x0 rows[y] (hcols y _ hr)
    have hcols' : ∀ (j : Nat) (row : List clr),
        (rows.set y l')[j]? = some row → x0 + nx ≤ row.length := by
      intro j row hj
      rw [List.getElem?_set] at hj
      split_ifs at hj with h1
      · cases hj; rw [hl]; exact hcols y _ hr
      · exact hcols j row hj
    obtain ⟨rows', hrest, hlen, hlens, hpix⟩ :=
      ihn (y + 1) (rows.set y l') (by rw [List.length_set]; omega) hcols'
    refine ⟨rows', ?_, by rw [hlen, List.length_set], ?_, ?_⟩
    · have hb : (row_ptrs rows)[y]? = some (some rows[y]) := by
        rw [row_ptrs_getElem, hr]; rfl
      have hset : (row_ptrs rows).set y (some l') = row_ptrs (rows.set y l') := by
        unfold row_ptrs; rw [List.map_set]
      simp only [store_rows, hb, hs, hset, hrest]
    · intro j
      rw [hlens j, List.getElem?_set]
      split_ifs with h1
      · subst h1; rw [hr]; simp [hl]
      · rfl
    · intro x j
      rw [hpix x j, pixel_set rows y l' hylt, hg x]
      by_cases h1 : y = j
      · subst h1
        have hp : pixel rows x y = (rows[y])[x]? := by simp [pixel, hr]
        rw [hp]
        split_ifs <;> first | rfl | (exfalso; omega)
      · split_ifs <;> first | rfl | (exfalso; omega)

/-- A buffer keeps its dimensions when it keeps its number of rows and the length of
each row. -/
theorem has_dims_of_lengths (rows rows' : List (List clr)) (dims : dim)
    (hd : has_dims rows dims) (hlen : rows'.length = rows.length)
    (hlens : ∀ j : Nat, (rows'[j]?).map List.length = (rows[j]?).map List.length) :
    has_dims rows' dims := by
  refine ⟨by rw [hlen]; exact hd.1, ?_⟩
  intro row hmem
  obtain ⟨j, hj⟩ := List.getElem?_of_mem hmem
  have h := hlens j
  rw [hj] at h
  cases hr : rows[j]? with
  | none => rw [hr] at h; cases h
  | some r =>
    rw [hr] at h
    simp only [Option.map_some', Option.some.injEq] at h
    rw [h]
    exact hd.2 r (List.getElem?_mem hr)

/-- What `draw_square` does to a buffer of dimensions `dims` when the origin lies in it:
it returns `true`, and stores `col` in the pixels from the origin to the far edge that
the program computes (the `unsigned int` sum of origin and `side_len`, replaced by the
dimension when greater), leaving the other pixels as they are. -/
theorem draw_square_block (origin : pnt) (side_len : Nat) (col : clr) (dims : dim)
    (rows : List (List clr)) (p : row_ptr) (hd : has_dims rows dims)
    (hx : origin.x < dims.width) (hy : origin.y < dims.height) :
    ∃ rows', draw_square origin side_len (some { rows := row_ptrs rows, past := p }) col dims
          = some (true, some { rows := row_ptrs rows', past := p })
      ∧ has_dims rows' dims
      ∧ ∀ x y, pixel rows' x y
          = if (origin.x ≤ x ∧ x < min ((origin.x + side_len) % UINT_RANGE) dims.width)
              ∧ (origin.y ≤ y ∧ y < min ((origin.y + side_len) % UINT_RANGE) dims.height)
            then some col else pixel rows x y := by
  obtain ⟨hlen, hrow⟩ := hd
  generalize htx : (if (origin.x + side_len) % UINT_RANGE > dims.width then dims.width
    else (origin.x + side_len) % UINT_RANGE) = tx
  generalize hty : (if (origin.y + side_len) % UINT_RANGE > dims.height then dims.height
    else (origin.y + side_len) % UINT_RANGE) = ty
  have htx' : tx = min ((origin.x + side_len) % UINT_RANGE) dims.width := by
    rw [← htx]; split_ifs <;> omega
  have hty' : ty = min ((origin.y + side_len) % UINT_RANGE) dims.height := by
    rw [← hty]; split_ifs <;> omega
  have hcols : ∀ (j : Nat) (row : List clr),
      rows[j]? = some row → origin.x + (tx - origin.x) ≤ row.length := by
    intro j row hj
    rw [hrow row (List.getElem?_mem hj)]
    omega
  obtain ⟨rows', hs, hl, hlens, hpix⟩ :=
    store_rows_buffer col origin.x (tx - origin.x) (ty - origin.y) origin.y rows
      (by omega) hcols
  refine ⟨rows', ?_, has_dims_of_lengths rows rows' dims ⟨hlen, hrow⟩ hl hlens, ?_⟩
  · cases rows with
    | nil => simp at hlen; omega
    | cons r rs =>
      have hguard : ¬ (origin.x ≥ dims.width ∨ origin.y ≥ dims.height) := by omega
      simp only [row_ptrs, List.map_cons] at hs ⊢
      simp only [draw_square, load_first, if_neg hguard, htx, hty, hs]
  · intro x y
    rw [hpix x y, ← htx', ← hty']
    split_ifs <;> first | rfl | (exfalso; omega)

/-- The same for the `clr **` of a buffer. -/
theorem draw_square_buffer (origin : pnt) (side_len : Nat) (col : clr) (dims : dim)
    (rows : List (List clr)) (hd : has_dims rows dims)
    (hx : origin.x < dims.width) (hy : origin.y < dims.height) :
    ∃ rows', draw_square origin side_len (buffer rows) col dims = some (true, buffer rows')
      ∧ has_dims rows' dims
      ∧ ∀ x y, pixel rows' x y
          = if (origin.x ≤ x ∧ x < min ((origin.x + side_len) % UINT_RANGE) dims.width)
              ∧ (origin.y ≤ y ∧ y < min ((origin.y + side_len) % UINT_RANGE) dims.height)
            then some col else pixel rows x y :=
  draw_square_block origin side_len col dims rows none hd hx hy

/-- When neither `origin.x + side_len` nor `origin.y + side_len` leaves the range of an
`unsigned int`, `draw_square` with its origin in the buffer draws the square cut at the
edges of the buffer. -/
theorem draw_square_no_wrap (origin : pnt) (side_len : Nat) (col : clr) (dims : dim)
    (rows : List (List clr)) (hd : has_dims rows dims)
    (hx : origin.x < dims.width) (hy : origin.y < dims.height)
    (hsx : origin.x + side_len < UINT_RANGE) (hsy : origin.y + side_len < UINT_RANGE) :
    ∃ rows', draw_square origin side_len (buffer rows) col dims = some (true, buffer rows')
      ∧ has_dims rows' dims
      ∧ ∀ x y, pixel rows' x y
          = if (origin.x ≤ x ∧ x < min (origin.x + side_len) dims.width)
              ∧ (origin.y ≤ y ∧ y < min (origin.y + side_len) dims.height)
            then some col else pixel rows x y := by
  have h := draw_square_buffer origin side_len col dims rows hd hx hy
  rw [Nat.mod_eq_of_lt hsx, Nat.mod_eq_of_lt hsy] at h
  exact h

/-! ## Buffers that hold the same pixels -/

/-- Two buffers with the same row lengths, row by row, and the same pixels are the same
buffer. -/
theorem rows_ext (rows rows' : List (List clr))
    (hlens : ∀ j : Nat, (rows'[j]?).map List.length = (rows[j]?).map List.length)
    (hpix : ∀ x j : Nat, pixel rows' x j = pixel rows x j) : rows' = rows := by
  apply List.ext_getElem?
  intro j
  have h1 := hlens j
  cases hr : rows[j]? with
  | none =>
    rw [hr] at h1
    cases hr' : rows'[j]? with
    | none => rfl
    | some r' => rw [hr'] at h1; cases h1
  | some r =>
    rw [hr] at h1
    cases hr' : rows'[j]? with
    | none => rw [hr'] at h1; cases h1
    | some r' =>
      congr 1
      apply List.ext_getElem?
      intro x
      have h2 := hpix x j
      simp only [pixel, hr, hr'] at h2
      exact h2

theorem pixel_replicate (w h : Nat) (col : clr) (x j : Nat) :
    pixel (List.replicate h (List.replicate w col)) x j
      = if j < h ∧ x < w then some col else none := by
  unfold pixel
  by_cases hj : j < h
  · rw [List.getElem?_eq_getElem (by simpa using hj)]
    simp only [List.getElem_replicate]
    by_cases hx : x < w
    · rw [List.getElem?_eq_getElem (by simpa using hx), if_pos ⟨hj, hx⟩]
      simp
    · rw [List.getElem?_eq_none (by simpa using hx), if_neg (by omega)]
  · rw [List.getElem?_eq_none (by simpa using hj), if_neg (by omega)]

theorem pixel_none_of_outside (rows : List (List clr)) (dims : dim) (hd : has_dims rows dims)
    (x j : Nat) (h : ¬ (j < dims.height ∧ x < dims.width)) : pixel rows x j = none := by
  unfold pixel
  cases hr : rows[j]? with
  | none => rfl
  | some r =>
    have hj : j < rows.length := by
      by_contra hc
      rw [List.getElem?_eq_none (by omega)] at hr
      cases hr
    have hw := hd.2 r (List.getElem?_mem hr)
    have hh := hd.1
    exact List.getElem?_eq_none (by omega)

theorem has_dims_replicate (w h : Nat) (col : clr) :
    has_dims (List.replicate h (List.replicate w col)) ⟨w, h⟩ := by
  refine ⟨by simp, ?_⟩
  intro row hrow
  rw [(List.mem_replicate.1 hrow).2]
  simp

theorem row_lengths_of_has_dims (rows : List (List clr)) (dims : dim)
    (hd : has_dims rows dims) (j : Nat) :
    (rows[j]?).map List.length = if j < dims.height then some dims.width else none := by
  by_cases hj : j < dims.height
  · have hlt : j < rows.length := by rw [hd.1]; exact hj
    rw [List.getElem?_eq_getElem hlt, if_pos hj]
    simp [hd.2 _ (List.getElem_mem hlt)]
  · rw [List.getElem?_eq_none (by rw [hd.1]; omega), if_neg hj]
    rfl

/-- What `fill_background` does to a block that holds the rows of a buffer of dimensions
`dims` that has a row: it returns 0 and leaves `col` in every pixel. -/
theorem fill_background_block (rows : List (List clr)) (p : row_ptr) (col : clr)
    (dims : dim) (hd : has_dims rows dims) (hh : 1 ≤ dims.height) :
    fill_background (some { rows := row_ptrs rows, past := p }) col dims
      = some (0, some { rows := row_ptrs (List.replicate dims.height
          (List.replicate dims.width col)), past := p }) := by
  have hcols : ∀ (j : Nat) (row : List clr),
      rows[j]? = some row → 0 + dims.width ≤ row.length := by
    intro j row hj
    rw [hd.2 row (List.getElem?_mem hj)]
    omega
  obtain ⟨rows', hs, _, hlens, hpix⟩ :=
    store_rows_buffer col 0 dims.width dims.height 0 rows (by rw [hd.1]; omega) hcols
  have heq : rows' = List.replicate dims.height (List.replicate dims.width col) := by
    apply rows_ext
    · intro j
      rw [hlens j, row_lengths_of_has_dims rows dims hd j,
        row_lengths_of_has_dims _ ⟨dims.width, dims.height⟩ (has_dims_replicate _ _ col) j]
    · intro x j
      rw [hpix x j, pixel_replicate]
      by_cases hin : j < dims.height ∧ x < dims.width
      · rw [if_pos (by omega), if_pos hin]
      · rw [if_neg (by omega), if_neg hin]
        exact pixel_none_of_outside rows dims hd x j hin
  rw [← heq]
  cases rows with
  | nil => have := hd.1; simp at this; omega
  | cons r rs =>
    simp only [row_ptrs, List.map_cons] at hs ⊢
    simp only [fill_background, load_first, Nat.sub_zero, hs]

/-- The same for the `clr **` of a buffer. -/
theorem fill_background_buffer (rows : List (List clr)) (col : clr) (dims : dim)
    (hd : has_dims rows dims) (hh : 1 ≤ dims.height) :
    fill_background (buffer rows) col dims
      = some (0, buffer (List.replicate dims.height (List.replicate dims.width col))) :=
  fill_background_block rows none col dims hd hh

/-- What `fill_background` does to a block that holds the rows of a buffer of width 0
that has a row: it returns 0 and leaves the rows, which are empty, as they were. -/
theorem fill_background_empty_rows (rows : List (List clr)) (p : row_ptr) (col : clr)
    (dims : dim) (hd : has_dims rows dims) (hw : dims.width = 0) (hh : 1 ≤ dims.height) :
    fill_background (some { rows := row_ptrs rows, past := p }) col dims
      = some (0, some { rows := row_ptrs rows, past := p }) := by
  have hrows : rows = List.replicate dims.height (List.replicate dims.width col) := by
    rw [List.eq_replicate_iff]
    refine ⟨hd.1, ?_⟩
    intro row hrow
    rw [hw]
    exact List.length_eq_zero.1 (by rw [hd.2 row hrow, hw])
  rw [fill_background_block rows p col dims hd hh, ← hrows]

/-- What `fill_background` does to a non-null pointer to a block with no row pointer,
for height 0: the guard loads `past`; the function returns 1 when that is `NULL` and 0
otherwise, and stores nothing. -/
theorem fill_background_empty_block (p : row_ptr) (col : clr) (w : Nat) :
    fill_background (some { rows := [], past := p }) col ⟨w, 0⟩
      = some (if p = none then 1 else 0, some { rows := [], past := p }) := by
  cases p with
  | none => rfl
  | some l => rfl

/-- What `draw_square` does when the origin lies outside the dimensions: it returns
`false` and leaves the buffer, whatever it is, as it was. -/
theorem draw_square_outside (origin : pnt) (side_len : Nat) (arr : arr_ptr) (col : clr)
    (dims : dim) (h : origin.x ≥ dims.width ∨ origin.y ≥ dims.height) :
    draw_square origin side_len arr col dims = some (false, arr) := by
  cases arr with
  | none => rfl
  | some a =>
    cases hl : (load_first a).1 with
    | none => simp only [draw_square, hl]
    | some l => simp only [draw_square, hl, if_pos h]

/-- What `draw_square` does to a block that holds the rows of a buffer of dimensions
`dims`, for every origin and side length: it returns, the loads and stores of its loops
stay in the buffer, which keeps its dimensions, and the load `*arr` of its guard is
inside the block when the buffer has a row. -/
theorem draw_square_block_in_bounds (origin : pnt) (side_len : Nat) (col : clr)
    (dims : dim) (rows : List (List clr)) (p : row_ptr) (hd : has_dims rows dims) :
    (∃ b rows', draw_square origin side_len (some { rows := row_ptrs rows, past := p })
          col dims = some (b, some { rows := row_ptrs rows', past := p })
        ∧ has_dims rows' dims)
      ∧ (1 ≤ dims.height → (load_first { rows := row_ptrs rows, past := p }).2 = true) := by
  refine ⟨?_, ?_⟩
  · by_cases hin : origin.x < dims.width ∧ origin.y < dims.height
    · obtain ⟨rows', hs, hd', _⟩ :=
        draw_square_block origin side_len col dims rows p hd hin.1 hin.2
      exact ⟨true, rows', hs, hd'⟩
    · exact ⟨false, rows, draw_square_outside origin side_len _ col dims (by omega), hd⟩
  · intro hh
    cases rows with
    | nil => have := hd.1; simp at this; omega
    | cons r rs => rfl

/-- What `draw_center_square` does when one of the dimensions is 0: it returns and
leaves the buffer, whatever it is, as it was. -/
theorem draw_center_square_zero_dimension (arr : arr_ptr) (col : clr) (s : Nat) (dims : dim)
    (hz : dims.width = 0 ∨ dims.height = 0) :
    ∃ b, draw_center_square arr col s dims = some (b, arr) := by
  cases arr with
  | none => exact ⟨true, rfl⟩
  | some a =>
    cases hl : (load_first a).1 with
    | none => exact ⟨true, by simp only [draw_center_square, hl]⟩
    | some l =>
      refine ⟨false, ?_⟩
      simp only [draw_center_square, hl]
      exact draw_square_outside _ s _ col dims (by
        rcases hz with h | h
        · exact Or.inl (by rw [h]; exact Nat.zero_le _)
        · exact Or.inr (by rw [h]; exact Nat.zero_le _))

/-! ## The run of `main` -/

/-- When no `malloc` returns `NULL`, the loop that allocates the rows gives `n` rows of
`width` pixels each. -/
theorem alloc_rows_some (lib : libc) (width : Nat)
    (hm : ∀ k n, lib.malloc_null k n = false) :
    ∀ n y, ∃ rows, alloc_rows lib width n y = some rows ∧ rows.length = n
      ∧ ∀ row ∈ rows, row.length = width := by
  intro n
  induction n with
  | zero => intro y; exact ⟨[], rfl, rfl, by simp⟩
  | succ n ihn =>
    intro y
    obtain ⟨rest, hrest, hlen, hrow⟩ := ihn (y + 1)
    refine ⟨(List.range width).map (lib.junk y) :: rest, ?_, by simp [hlen], ?_⟩
    · simp only [alloc_rows, hm, hrest]
      rfl
    · intro row hmem
      rcases List.mem_cons.1 hmem with h | h
      · rw [h]; simp
      · exact hrow row h

/-- When `malloc` returns `NULL` for every request of size zero, the loop that allocates
rows of width 0 stops at its first iteration. -/
theorem alloc_rows_zero_width_null (lib : libc) (hm : ∀ k, lib.malloc_null k 0 = true)
    (n y : Nat) : alloc_rows lib 0 (n + 1) y = none := by
  have h0 : 0 * sizeof_clr % SIZE_RANGE = 0 := by decide
  simp only [alloc_rows, h0, hm]
  rfl

/-- The run for a width or a height of 0 when `malloc` returns `NULL` for every request
of size zero: it returns 1 and writes nothing. -/
theorem main_zero_dimension_null_malloc (w h : Nat) (bg_clr sqr_clr : clr) (s : Nat)
    (lib : libc) (hz : w = 0 ∨ h = 0) (hm : ∀ k, lib.malloc_null k 0 = true) :
    main w h bg_clr sqr_clr s lib = some (1, []) := by
  by_cases hh : h = 0
  · subst hh
    have h0 : 0 * sizeof_clr_ptr % SIZE_RANGE = 0 := by decide
    simp only [main, h0, hm, if_true]
  · have hw : w = 0 := by omega
    subst hw
    obtain ⟨n, hn⟩ : ∃ n, h = n + 1 := ⟨h - 1, by omega⟩
    subst hn
    simp only [main, Nat.sub_zero, alloc_rows_zero_width_null lib hm]
    by_cases hc : lib.malloc_null 0 ((n + 1) * sizeof_clr_ptr % SIZE_RANGE) = true
    · rw [if_pos hc]
    · rw [if_neg hc]

/-- The run for a width or a height of 0 when no `malloc` returns `NULL` and the file
opens: it returns 0 and writes the 54 bytes of the two headers and nothing else, and
the `file_size` field is 54. For height 0 the guards load `*arr` outside the empty
block of row pointers on the way, whatever value `lib.past` these loads yield. -/
theorem main_zero_dimension_good_library (w h : Nat) (bg_clr sqr_clr : clr) (s : Nat)
    (lib : libc) (hz : w = 0 ∨ h = 0) (hm : ∀ k n, lib.malloc_null k n = false)
    (hf : lib.fopen_null = false) :
    main w h bg_clr sqr_clr s lib
        = some (0, file_header_bytes (fh w h) ++ info_header_bytes (ih w h))
      ∧ (file_header_bytes (fh w h) ++ info_header_bytes (ih w h)).length = 54
      ∧ (fh w h).file_size = 54 := by
  have hp : padding 0 = 0 := by decide
  obtain ⟨rows, hrows, hlen, hrow⟩ := alloc_rows_some lib w hm h 0
  have hd : has_dims rows ⟨w, h⟩ := ⟨hlen, hrow⟩
  have hfill : ∃ r, fill_background (some { rows := row_ptrs rows, past := lib.past })
      bg_clr ⟨w, h⟩ = some (r, some { rows := row_ptrs rows, past := lib.past }) := by
    by_cases hh : h = 0
    · subst hh
      have hnil : rows = [] := List.length_eq_zero.1 hlen
      subst hnil
      exact ⟨_, fill_background_empty_block lib.past bg_clr w⟩
    · exact ⟨0, fill_background_empty_rows rows lib.past bg_clr ⟨w, h⟩ hd
        (by show w = 0; omega) (by show 1 ≤ h; omega)⟩
  obtain ⟨r, hfill⟩ := hfill
  obtain ⟨b, hdraw⟩ := draw_center_square_zero_dimension
    (some { rows := row_ptrs rows, past := lib.past }) sqr_clr s ⟨w, h⟩ hz
  obtain ⟨px, hout, hpx, _⟩ := main_write_block w h rows lib.past hd
  have hzero : h * (3 * w + padding w) = 0 := by
    rcases hz with h0 | h0
    · subst h0; rw [hp]; rfl
    · subst h0; exact Nat.zero_mul _
  have hnil : px = [] := List.length_eq_zero.1 (by rw [hpx, hzero])
  rw [hnil, List.append_nil] at hout
  refine ⟨?_, by rw [List.length_append, file_header_bytes_length, info_header_bytes_length],
    by rw [file_size_mod, hzero]; rfl⟩
  have hb : rows.map some = row_ptrs rows := rfl
  simp only [main, hm, Nat.sub_zero, hrows, hb, hfill, hdraw, hf, hout]
  rw [if_neg (by decide), if_neg (by decide)]

/-! ## The claims on the headers and on the file -/

/-- C1: for every width `w`, the padding that `main` computes is `(4 - (3w mod 4)) mod 4`,
and the padded row length `3w + padding`, as a number and as the `unsigned int` sum of
the program, is a multiple of 4. -/
theorem padding_rounds_row_to_four (w : Nat) :
    padding w = (4 - 3 * w % 4) % 4 ∧ (3 * w + padding w) % 4 = 0
      ∧ (((w * 3) % UINT_RANGE + padding w) % UINT_RANGE) % 4 = 0 := by
  have h := rem_eq w
  unfold padding UINT_RANGE
  rw [h]
  split <;> omega

/-- C2: when `54 + height*(3*width + padding)` fits in an `unsigned int`, the `file_size`
field of the file header is `14 + 40 + height*(3*width + padding)`. -/
theorem file_size_when_it_fits (w h : Nat)
    (hfit : 54 + h * (3 * w + padding w) < UINT_RANGE) :
    (fh w h).file_size = 14 + 40 + h * (3 * w + padding w) := by
  rw [file_size_mod, Nat.mod_eq_of_lt hfit]

theorem file_size_when_it_fits_witness :
    54 + 1400 * (3 * 2000 + padding 2000) < UINT_RANGE
      ∧ (fh 2000 1400).file_size = 14 + 40 + 1400 * (3 * 2000 + padding 2000) :=
  ⟨by decide, file_size_when_it_fits 2000 1400 (by decide)⟩

/-- C3: for a buffer of width `w` and height `h` whose file size fits in 32 bits, the
file is written, and the number of bytes written (the two headers, then for each row its
pixels and the padding) is the `file_size` stored in the file header. -/
theorem bytes_written_eq_file_size (w h : Nat) (rows : List (List clr))
    (hd : has_dims rows ⟨w, h⟩) (hfit : 54 + h * (3 * w + padding w) < UINT_RANGE) :
    ∃ out, main_write w h (buffer rows) = some out
      ∧ out.length = 14 + 40 + h * (3 * w + padding w)
      ∧ out.length = (fh w h).file_size := by
  obtain ⟨px, hout, hl, _⟩ := main_write_buffer w h rows hd
  have hlen : (file_header_bytes (fh w h) ++ info_header_bytes (ih w h) ++ px).length
      = 14 + 40 + h * (3 * w + padding w) := by
    rw [List.length_append, List.length_append, file_header_bytes_length,
      info_header_bytes_length, hl]
  exact ⟨_, hout, hlen, by rw [hlen, file_size_when_it_fits w h hfit]⟩

theorem bytes_written_eq_file_size_witness :
    has_dims [[⟨1, 2, 3⟩, ⟨4, 5, 6⟩], [⟨7, 8, 9⟩, ⟨10, 11, 12⟩]] ⟨2, 2⟩
      ∧ 54 + 2 * (3 * 2 + padding 2) < UINT_RANGE
      ∧ ∃ out, main_write 2 2 (buffer [[⟨1, 2, 3⟩, ⟨4, 5, 6⟩], [⟨7, 8, 9⟩, ⟨10, 11, 12⟩]])
            = some out
          ∧ out.length = 14 + 40 + 2 * (3 * 2 + padding 2)
          ∧ out.length = (fh 2 2).file_size :=
  ⟨by simp [has_dims], by decide,
    bytes_written_eq_file_size 2 2 _ (by simp [has_dims]) (by decide)⟩

/-- C4: for a buffer of width `w` and height `h` the file is written, the three bytes at
offsets `54 + y*(3w + padding) + 3x`, `+1`, `+2` are the blue, green and red channels of
the stored pixel `(x, y)` (row `y` of the buffer is row `y` of the file: no flip), and
the `padding` bytes after the `w` pixels of each row are zero. -/
theorem pixel_bytes_in_file (w h : Nat) (rows : List (List clr))
    (hd : has_dims rows ⟨w, h⟩) :
    ∃ out, main_write w h (buffer rows) = some out
      ∧ (∀ x y, x < w → y < h → ∃ c, pixel rows x y = some c
          ∧ out[54 + y * (3 * w + padding w) + 3 * x]? = some c.b
          ∧ out[54 + y * (3 * w + padding w) + 3 * x + 1]? = some c.g
          ∧ out[54 + y * (3 * w + padding w) + 3 * x + 2]? = some c.r)
      ∧ (∀ y k, y < h → k < padding w →
          out[54 + y * (3 * w + padding w) + 3 * w + k]? = some 0) := by
  obtain ⟨px, hout, _, hget⟩ := main_write_buffer w h rows hd
  obtain ⟨hlen, hrow⟩ := hd
  simp only at hlen hrow
  have hoff : ∀ m, (file_header_bytes (fh w h) ++ info_header_bytes (ih w h) ++ px)[54 + m]?
      = px[m]? := by
    intro m
    rw [List.getElem?_append_right
      (by rw [List.length_append, file_header_bytes_length, info_header_bytes_length]; omega)]
    rw [List.length_append, file_header_bytes_length, info_header_bytes_length]
    congr 1
    omega
  refine ⟨_, hout, ?_, ?_⟩
  · intro x y hx hy
    have hylt : y < rows.length := by omega
    have hr : rows[y]? = some rows[y] := List.getElem?_eq_getElem hylt
    have hw : (rows[y]).length = w := hrow _ (List.getElem_mem hylt)
    have hxlt : x < (rows[y]).length := by omega
    have hc : (rows[y])[x]? = some (rows[y])[x] := List.getElem?_eq_getElem hxlt
    obtain ⟨hb, hg, hr3⟩ := flatMap_clr_bytes_getElem _ x _ hc
    have hfl := flatMap_clr_bytes_length rows[y]
    refine ⟨(rows[y])[x], by simp [pixel, hr], ?_, ?_, ?_⟩
    · rw [Nat.add_assoc, hoff, hget y _ hy hr (3 * x) (by omega),
        List.getElem?_append_left (by omega), hb]
    · rw [Nat.add_assoc, Nat.add_assoc, hoff,
        hget y _ hy hr (3 * x + 1) (by omega), List.getElem?_append_left (by omega), hg]
    · rw [Nat.add_assoc, Nat.add_assoc, hoff,
        hget y _ hy hr (3 * x + 2) (by omega), List.getElem?_append_left (by omega), hr3]
  · intro y k hy hk
    have hylt : y < rows.length := by omega
    have hr : rows[y]? = some rows[y] := List.getElem?_eq_getElem hylt
    have hw : (rows[y]).length = w := hrow _ (List.getElem_mem hylt)
    have hfl := flatMap_clr_bytes_length rows[y]
    rw [Nat.add_assoc, Nat.add_assoc, hoff,
      hget y _ hy hr (3 * w + k) (by omega), List.getElem?_append_right (by omega)]
    simp [hfl, hw, hk]

theorem pixel_bytes_in_file_witness :
    has_dims [[⟨1, 2, 3⟩], [⟨7, 8, 9⟩]] ⟨1, 2⟩
      ∧ ∃ out, main_write 1 2 (buffer [[⟨1, 2, 3⟩], [⟨7, 8, 9⟩]]) = some out
      ∧ (∀ x y, x < 1 → y < 2 → ∃ c, pixel [[⟨1, 2, 3⟩], [⟨7, 8, 9⟩]] x y = some c
          ∧ out[54 + y * (3 * 1 + padding 1) + 3 * x]? = some c.b
          ∧ out[54 + y * (3 * 1 + padding 1) + 3 * x + 1]? = some c.g
          ∧ out[54 + y * (3 * 1 + padding 1) + 3 * x + 2]? = some c.r)
      ∧ (∀ y k, y < 2 → k < padding 1 →
          out[54 + y * (3 * 1 + padding 1) + 3 * 1 + k]? = some 0) :=
  ⟨by simp [has_dims], pixel_bytes_in_file 1 2 _ (by simp [has_dims])⟩

/-- C5: for a buffer of width `w` and height `h`, the first 14 bytes of the file are the
file header: `0x42 0x4D`, `file_size` on 4 bytes least significant first (the 4 bytes
hold all of it), the two reserved fields, zero, on 2 bytes each, and `array_offset` on
4 bytes least significant first; the header in memory is 14 bytes long. -/
theorem file_header_in_file (w h : Nat) (rows : List (List clr))
    (hd : has_dims rows ⟨w, h⟩) :
    ∃ out, main_write w h (buffer rows) = some out
      ∧ out.take 14 =
          [0x42, 0x4D,
           (fh w h).file_size % 256, (fh w h).file_size / 256 % 256,
           (fh w h).file_size / 65536 % 256, (fh w h).file_size / 16777216 % 256,
           0, 0, 0, 0,
           (fh w h).array_offset % 256, (fh w h).array_offset / 256 % 256,
           (fh w h).array_offset / 65536 % 256, (fh w h).array_offset / 16777216 % 256]
      ∧ (fh w h).file_size % 256 + 256 * ((fh w h).file_size / 256 % 256)
          + 65536 * ((fh w h).file_size / 65536 % 256)
          + 16777216 * ((fh w h).file_size / 16777216 % 256) = (fh w h).file_size
      ∧ (fh w h).reserved_1 = 0 ∧ (fh w h).reserved_2 = 0
      ∧ (file_header_bytes (fh w h)).length = 14 := by
  obtain ⟨px, hout, _, _⟩ := main_write_buffer w h rows hd
  refine ⟨_, hout, ?_, ?_, rfl, rfl, file_header_bytes_length _⟩
  · rw [List.append_assoc, List.take_left' (file_header_bytes_length _)]
    show [66, 77] ++ le_bytes 4 (fh w h).file_size ++ le_bytes 2 0 ++ le_bytes 2 0
      ++ le_bytes 4 (fh w h).array_offset = _
    rw [le_bytes_four, le_bytes_four]
    rfl
  · have hlt : (fh w h).file_size < 4294967296 := by
      rw [file_size_mod]; exact Nat.mod_lt _ (by decide)
    omega

theorem file_header_in_file_witness :
    has_dims [[⟨1, 2, 3⟩], [⟨7, 8, 9⟩]] ⟨1, 2⟩
      ∧ ∃ out, main_write 1 2 (buffer [[⟨1, 2, 3⟩], [⟨7, 8, 9⟩]]) = some out
      ∧ out.take 14 =
          [0x42, 0x4D,
           (fh 1 2).file_size % 256, (fh 1 2).file_size / 256 % 256,
           (fh 1 2).file_size / 65536 % 256, (fh 1 2).file_size / 16777216 % 256,
           0, 0, 0, 0,
           (fh 1 2).array_offset % 256, (fh 1 2).array_offset / 256 % 256,
           (fh 1 2).array_offset / 65536 % 256, (fh 1 2).array_offset / 16777216 % 256]
      ∧ (fh 1 2).file_size % 256 + 256 * ((fh 1 2).file_size / 256 % 256)
          + 65536 * ((fh 1 2).file_size / 65536 % 256)
          + 16777216 * ((fh 1 2).file_size / 16777216 % 256) = (fh 1 2).file_size
      ∧ (fh 1 2).reserved_1 = 0 ∧ (fh 1 2).reserved_2 = 0
      ∧ (file_header_bytes (fh 1 2)).length = 14 :=
  ⟨by simp [has_dims], file_header_in_file 1 2 _ (by simp [has_dims])⟩

/-- C6: for a buffer of width `w` and height `h`, bytes 14 to 53 of the file are the info
header: `header_size = 40`, the width and the height of the buffer on 4 bytes each, least
significant byte first, `color_panes = 1` and `bpp = 24` on 2 bytes each, then 24 zero
bytes for the six remaining 4-byte fields, all zero. -/
theorem info_header_in_file (w h : Nat) (rows : List (List clr))
    (hd : has_dims rows ⟨w, h⟩) :
    ∃ out, main_write w h (buffer rows) = some out
      ∧ (out.drop 14).take 40 =
          [40, 0, 0, 0,
           w % 256, w / 256 % 256, w / 65536 % 256, w / 16777216 % 256,
           h % 256, h / 256 % 256, h / 65536 % 256, h / 16777216 % 256,
           1, 0,
           24, 0,
           0, 0, 0, 0,  0, 0, 0, 0,  0, 0, 0, 0,  0, 0, 0, 0,  0, 0, 0, 0,  0, 0, 0, 0]
      ∧ (ih w h).header_size = 40 ∧ (ih w h).width = w ∧ (ih w h).height = h
      ∧ (ih w h).color_panes = 1 ∧ (ih w h).bpp = 24
      ∧ (ih w h).compression = 0 ∧ (ih w h).image_size = 0 ∧ (ih w h).h_res = 0
      ∧ (ih w h).v_res = 0 ∧ (ih w h).num_clr_palette = 0 ∧ (ih w h).num_imp_clrs = 0 := by
  obtain ⟨px, hout, _, _⟩ := main_write_buffer w h rows hd
  refine ⟨_, hout, ?_, rfl, rfl, rfl, rfl, rfl, rfl, rfl, rfl, rfl, rfl, rfl⟩
  rw [List.append_assoc, List.drop_left' (file_header_bytes_length _),
    List.take_left' (info_header_bytes_length _)]
  show le_bytes 4 40 ++ le_bytes 4 w ++ le_bytes 4 h ++ le_bytes 2 1 ++ le_bytes 2 24
    ++ le_bytes 4 0 ++ le_bytes 4 0 ++ le_bytes 4 0 ++ le_bytes 4 0 ++ le_bytes 4 0
    ++ le_bytes 4 0 = _
  rw [le_bytes_four w, le_bytes_four h]
  rfl

theorem info_header_in_file_witness :
    has_dims [[⟨1, 2, 3⟩], [⟨7, 8, 9⟩]] ⟨1, 2⟩
      ∧ ∃ out, main_write 1 2 (buffer [[⟨1, 2, 3⟩], [⟨7, 8, 9⟩]]) = some out
      ∧ (out.drop 14).take 40 =
          [40, 0, 0, 0,
           1 % 256, 1 / 256 % 256, 1 / 65536 % 256, 1 / 16777216 % 256,
           2 % 256, 2 / 256 % 256, 2 / 65536 % 256, 2 / 16777216 % 256,
           1, 0,
           24, 0,
           0, 0, 0, 0,  0, 0, 0, 0,  0, 0, 0, 0,  0, 0, 0, 0,  0, 0, 0, 0,  0, 0, 0, 0]
      ∧ (ih 1 2).header_size = 40 ∧ (ih 1 2).width = 1 ∧ (ih 1 2).height = 2
      ∧ (ih 1 2).color_panes = 1 ∧ (ih 1 2).bpp = 24
      ∧ (ih 1 2).compression = 0 ∧ (ih 1 2).image_size = 0 ∧ (ih 1 2).h_res = 0
      ∧ (ih 1 2).v_res = 0 ∧ (ih 1 2).num_clr_palette = 0 ∧ (ih 1 2).num_imp_clrs = 0 :=
  ⟨by simp [has_dims], info_header_in_file 1 2 _ (by simp [has_dims])⟩

/-- C7 (counterexample): for width 40000 and height 40000 the pixel array size exceeds
the range of an `unsigned int`, and the header is built all the same, its `file_size`
being the wrapped-around 505032758 and not the 4800000054 bytes of the file. -/
theorem file_size_wraps_at_40000 :
    UINT_RANGE ≤ 40000 * (3 * 40000 + padding 40000)
      ∧ (fh 40000 40000).file_size = 505032758
      ∧ (fh 40000 40000).file_size ≠ 14 + 40 + 40000 * (3 * 40000 + padding 40000) := by
  decide

/-- C7 (amended): for every width and height the header is built, with no check of the
range: its `file_size` is `14 + 40 + height*(3*width + padding)` reduced modulo 2^32. -/
theorem file_size_is_reduced_mod_uint_range (w h : Nat) :
    (fh w h).file_size = (14 + 40 + h * (3 * w + padding w)) % UINT_RANGE :=
  file_size_mod w h

/-- C8: for every width and height, the `array_offset` field of the file header is 54,
the sum of the sizes 14 and 40 of the two headers. -/
theorem array_offset_is_54 (w h : Nat) :
    (fh w h).array_offset = 54 ∧ sizeof_file_header = 14 ∧ sizeof_info_header = 40 :=
  ⟨rfl, rfl, rfl⟩

/-! ## The claims on `draw_square` -/

/-- C9 (the code at a failing input): in a 2 x 2 buffer, `draw_square` with origin
`(1, 1)`, which lies in the buffer, and `side_len = 4294967295` returns `true` and
leaves the buffer as it was: `1 + 4294967295` wraps around to 0, the far edge becomes
`(0, 0)` and both loops are empty, whereas pixel `(1, 1)`, for which
`1 <= 1 < min(1 + 4294967295, 2)`, ought to take the colour of the square. -/
theorem draw_square_huge_side_draws_nothing :
    ((1 : Nat) ≤ 1 ∧ 1 < min (1 + 4294967295) 2)
      ∧ draw_square ⟨1, 1⟩ 4294967295
          (buffer [[⟨255, 0, 255⟩, ⟨255, 0, 255⟩], [⟨255, 0, 255⟩, ⟨255, 0, 255⟩]])
          ⟨0, 255, 0⟩ ⟨2, 2⟩
        = some (true,
            buffer [[⟨255, 0, 255⟩, ⟨255, 0, 255⟩], [⟨255, 0, 255⟩, ⟨255, 0, 255⟩]])
      ∧ pixel [[⟨255, 0, 255⟩, ⟨255, 0, 255⟩], [⟨255, 0, 255⟩, ⟨255, 0, 255⟩]] 1 1
        ≠ some ⟨0, 255, 0⟩ := by
  decide

/-- C10 (the code at a failing input): for the buffer of width 2 and height 0, whose
array of row pointers is a non-null pointer to a block with no row pointer in it,
`draw_square` loads `*arr`, row pointer 0, outside the block in its guard, whatever
value the load yields, before it returns `false`: a row index outside the buffer is
accessed. -/
theorem draw_square_guard_loads_outside_empty_block :
    has_dims [] ⟨2, 0⟩
      ∧ load_first { rows := row_ptrs [], past := none } = (none, false)
      ∧ draw_square ⟨0, 0⟩ 1 (some { rows := row_ptrs [], past := none }) ⟨0, 255, 0⟩ ⟨2, 0⟩
        = some (false, some { rows := row_ptrs [], past := none })
      ∧ load_first { rows := row_ptrs [], past := some [] } = (some [], false)
      ∧ draw_square ⟨0, 0⟩ 1 (some { rows := row_ptrs [], past := some [] }) ⟨0, 255, 0⟩
          ⟨2, 0⟩
        = some (false, some { rows := row_ptrs [], past := some [] }) := by
  refine ⟨by simp [has_dims], by decide, by decide, by decide, by decide⟩

/-- C11: for every buffer, colour and side length, when `origin.x >= width` or
`origin.y >= height`, `draw_square` returns `false` and leaves the buffer, hence every
pixel of it, as it was. -/
theorem draw_square_outside_is_skipped (origin : pnt) (side_len : Nat) (arr : arr_ptr)
    (col : clr) (dims : dim) (h : origin.x ≥ dims.width ∨ origin.y ≥ dims.height) :
    draw_square origin side_len arr col dims = some (false, arr) := by
  cases arr with
  | none => rfl
  | some a =>
    cases hrow : (load_first a).1 with
    | none => simp only [draw_square, hrow]
    | some l => simp only [draw_square, hrow, if_pos h]

theorem draw_square_outside_is_skipped_witness :
    (((⟨2, 0⟩ : pnt).x ≥ (⟨2, 2⟩ : dim).width ∨ (⟨2, 0⟩ : pnt).y ≥ (⟨2, 2⟩ : dim).height)
      ∧ draw_square ⟨2, 0⟩ 1
          (buffer [[⟨255, 0, 255⟩, ⟨255, 0, 255⟩], [⟨255, 0, 255⟩, ⟨255, 0, 255⟩]])
          ⟨0, 255, 0⟩ ⟨2, 2⟩
        = some (false,
            buffer [[⟨255, 0, 255⟩, ⟨255, 0, 255⟩], [⟨255, 0, 255⟩, ⟨255, 0, 255⟩]])) :=
  ⟨by decide, draw_square_outside_is_skipped ⟨2, 0⟩ 1 _ ⟨0, 255, 0⟩ ⟨2, 2⟩ (by decide)⟩

/-! ## The claims on `draw_center_square` and `fill_background` -/

/-- C12: for a buffer of dimensions `(w, h)` and a side length `s` with `1 <= s <= w` and
`s <= h`, `draw_center_square` is `draw_square` with origin `((w - s)/2, (h - s)/2)`: it
returns `true`, stores `col` in the `s` x `s` pixels with
`(w - s)/2 <= x < (w - s)/2 + s` and `(h - s)/2 <= y < (h - s)/2 + s`, which all lie in
the buffer, and leaves every other pixel as it was. -/
theorem draw_center_square_draws_centred (w h s : Nat) (col : clr) (rows : List (List clr))
    (hd : has_dims rows ⟨w, h⟩) (hw : w < UINT_RANGE) (hh : h < UINT_RANGE)
    (hs : 1 ≤ s) (hsw : s ≤ w) (hsh : s ≤ h) :
    draw_center_square (buffer rows) col s ⟨w, h⟩
        = draw_square ⟨(w - s) / 2, (h - s) / 2⟩ s (buffer rows) col ⟨w, h⟩
      ∧ ((w - s) / 2 + s ≤ w ∧ (h - s) / 2 + s ≤ h)
      ∧ ∃ rows', draw_center_square (buffer rows) col s ⟨w, h⟩ = some (true, buffer rows')
          ∧ has_dims rows' ⟨w, h⟩
          ∧ ∀ x y, pixel rows' x y
              = if ((w - s) / 2 ≤ x ∧ x < (w - s) / 2 + s)
                  ∧ ((h - s) / 2 ≤ y ∧ y < (h - s) / 2 + s)
                then some col else pixel rows x y := by
  have hox : (w + UINT_RANGE - s) % UINT_RANGE = w - s := by
    unfold UINT_RANGE at hw ⊢; omega
  have hoy : (h + UINT_RANGE - s) % UINT_RANGE = h - s := by
    unfold UINT_RANGE at hh ⊢; omega
  have hcall : draw_center_square (buffer rows) col s ⟨w, h⟩
      = draw_square ⟨(w - s) / 2, (h - s) / 2⟩ s (buffer rows) col ⟨w, h⟩ := by
    cases rows with
    | nil => have := hd.1; simp at this; omega
    | cons r rs =>
      simp only [buffer, row_ptrs, List.map_cons]
      simp only [draw_center_square, load_first, hox, hoy]
  have hfx : (w - s) / 2 + s ≤ w := by omega
  have hfy : (h - s) / 2 + s ≤ h := by omega
  obtain ⟨rows', hs', hd', hpix⟩ :=
    draw_square_no_wrap ⟨(w - s) / 2, (h - s) / 2⟩ s col ⟨w, h⟩ rows hd
      (show (w - s) / 2 < w by omega) (show (h - s) / 2 < h by omega)
      (show (w - s) / 2 + s < UINT_RANGE by omega)
      (show (h - s) / 2 + s < UINT_RANGE by omega)
  refine ⟨hcall, ⟨hfx, hfy⟩, rows', by rw [hcall]; exact hs', hd', ?_⟩
  intro x y
  have h := hpix x y
  simp only [Nat.min_eq_left hfx, Nat.min_eq_left hfy] at h
  exact h

theorem draw_center_square_draws_centred_witness :
    has_dims [[⟨1, 1, 1⟩, ⟨2, 2, 2⟩, ⟨3, 3, 3⟩], [⟨4, 4, 4⟩, ⟨5, 5, 5⟩, ⟨6, 6, 6⟩]] ⟨3, 2⟩
      ∧ 3 < UINT_RANGE ∧ 2 < UINT_RANGE ∧ 1 ≤ 2 ∧ 2 ≤ 3 ∧ 2 ≤ 2
      ∧ (draw_center_square
            (buffer [[⟨1, 1, 1⟩, ⟨2, 2, 2⟩, ⟨3, 3, 3⟩], [⟨4, 4, 4⟩, ⟨5, 5, 5⟩, ⟨6, 6, 6⟩]])
            ⟨0, 255, 0⟩ 2 ⟨3, 2⟩
          = draw_square ⟨(3 - 2) / 2, (2 - 2) / 2⟩ 2
              (buffer [[⟨1, 1, 1⟩, ⟨2, 2, 2⟩, ⟨3, 3, 3⟩], [⟨4, 4, 4⟩, ⟨5, 5, 5⟩, ⟨6, 6, 6⟩]])
              ⟨0, 255, 0⟩ ⟨3, 2⟩
        ∧ ((3 - 2) / 2 + 2 ≤ 3 ∧ (2 - 2) / 2 + 2 ≤ 2)
        ∧ ∃ rows', draw_center_square
              (buffer [[⟨1, 1, 1⟩, ⟨2, 2, 2⟩, ⟨3, 3, 3⟩], [⟨4, 4, 4⟩, ⟨5, 5, 5⟩, ⟨6, 6, 6⟩]])
              ⟨0, 255, 0⟩ 2 ⟨3, 2⟩ = some (true, buffer rows')
            ∧ has_dims rows' ⟨3, 2⟩
            ∧ ∀ x y, pixel rows' x y
                = if ((3 - 2) / 2 ≤ x ∧ x < (3 - 2) / 2 + 2)
                    ∧ ((2 - 2) / 2 ≤ y ∧ y < (2 - 2) / 2 + 2)
                  then some ⟨0, 255, 0⟩
                  else pixel [[⟨1, 1, 1⟩, ⟨2, 2, 2⟩, ⟨3, 3, 3⟩],
                    [⟨4, 4, 4⟩, ⟨5, 5, 5⟩, ⟨6, 6, 6⟩]] x y) :=
  ⟨by simp [has_dims], by decide, by decide, by decide, by decide, by decide,
    draw_center_square_draws_centred 3 2 2 ⟨0, 255, 0⟩ _ (by simp [has_dims]) (by decide)
      (by decide) (by decide) (by decide) (by decide)⟩

/-- C13: for a buffer of width `w >= 1` and height `h >= 1`, `fill_background` returns
0 and leaves `col` in every pixel `(x, y)` with `x < w` and `y < h`, whatever the buffer
held; applied again with the same colour, it returns 0 and the same buffer. -/
theorem fill_background_fills_and_is_idempotent (w h : Nat) (col : clr)
    (rows : List (List clr)) (hd : has_dims rows ⟨w, h⟩) (_hw : 1 ≤ w) (hh : 1 ≤ h) :
    ∃ rows', fill_background (buffer rows) col ⟨w, h⟩ = some (0, buffer rows')
      ∧ has_dims rows' ⟨w, h⟩
      ∧ (∀ x y, x < w → y < h → pixel rows' x y = some col)
      ∧ fill_background (buffer rows') col ⟨w, h⟩ = some (0, buffer rows') := by
  refine ⟨List.replicate h (List.replicate w col),
    fill_background_buffer rows col ⟨w, h⟩ hd hh, has_dims_replicate w h col, ?_,
    fill_background_buffer _ col ⟨w, h⟩ (has_dims_replicate w h col) hh⟩
  intro x y hx hy
  rw [pixel_replicate, if_pos ⟨hy, hx⟩]

theorem fill_background_fills_and_is_idempotent_witness :
    has_dims [[⟨1, 1, 1⟩, ⟨2, 2, 2⟩, ⟨3, 3, 3⟩], [⟨4, 4, 4⟩, ⟨5, 5, 5⟩, ⟨6, 6, 6⟩]] ⟨3, 2⟩
      ∧ 1 ≤ 3 ∧ 1 ≤ 2
      ∧ ∃ rows', fill_background
            (buffer [[⟨1, 1, 1⟩, ⟨2, 2, 2⟩, ⟨3, 3, 3⟩], [⟨4, 4, 4⟩, ⟨5, 5, 5⟩, ⟨6, 6, 6⟩]])
            ⟨255, 0, 255⟩ ⟨3, 2⟩ = some (0, buffer rows')
          ∧ has_dims rows' ⟨3, 2⟩
          ∧ (∀ x y, x < 3 → y < 2 → pixel rows' x y = some ⟨255, 0, 255⟩)
          ∧ fill_background (buffer rows') ⟨255, 0, 255⟩ ⟨3, 2⟩ = some (0, buffer rows') :=
  ⟨by simp [has_dims], by decide, by decide,
    fill_background_fills_and_is_idempotent 3 2 ⟨255, 0, 255⟩ _ (by simp [has_dims])
      (by decide) (by decide)⟩

/-- C14 (the code at a failing input): for the buffer of width 5 and height 0, whose
array of row pointers is a non-null pointer to a block with no row pointer in it, the
guard of `fill_background` loads `*arr` outside the block, and when the value loaded is
`NULL` the function returns 1 and not 0; it returns 1 as well when the array pointer is
`NULL` itself. The buffer is left as it was. -/
theorem fill_background_empty_block_returns_1 :
    has_dims [] ⟨5, 0⟩
      ∧ load_first { rows := row_ptrs [], past := none } = (none, false)
      ∧ fill_background (some { rows := row_ptrs [], past := none }) ⟨255, 0, 255⟩ ⟨5, 0⟩
        = some (1, some { rows := row_ptrs [], past := none })
      ∧ fill_background none ⟨255, 0, 255⟩ ⟨5, 0⟩ = some (1, none) := by
  refine ⟨by simp [has_dims], by decide, by decide, by decide⟩

/-! ## The claims on the run and on its arithmetic -/

/-- C15: for a buffer of width `w >= 1` and height `h >= 1` and a colour `C`, filling
the buffer with `fill_background` and writing the file succeed, and for every `x < w`
and `y < h` the bytes of the file at offsets `54 + y*(3w + padding) + 3x`, `+1`, `+2`
are `C.b`, `C.g`, `C.r`. -/
theorem filled_buffer_bytes_in_file (w h : Nat) (C : clr) (rows : List (List clr))
    (hd : has_dims rows ⟨w, h⟩) (_hw : 1 ≤ w) (hh : 1 ≤ h) :
    ∃ rows' out, fill_background (buffer rows) C ⟨w, h⟩ = some (0, buffer rows')
      ∧ main_write w h (buffer rows') = some out
      ∧ ∀ x y, x < w → y < h →
          out[54 + y * (3 * w + padding w) + 3 * x]? = some C.b
          ∧ out[54 + y * (3 * w + padding w) + 3 * x + 1]? = some C.g
          ∧ out[54 + y * (3 * w + padding w) + 3 * x + 2]? = some C.r := by
  obtain ⟨px, hout, _, hget⟩ :=
    main_write_buffer w h (List.replicate h (List.replicate w C)) (has_dims_replicate w h C)
  have hoff : ∀ m, (file_header_bytes (fh w h) ++ info_header_bytes (ih w h) ++ px)[54 + m]?
      = px[m]? := by
    intro m
    rw [List.getElem?_append_right
      (by rw [List.length_append, file_header_bytes_length, info_header_bytes_length]; omega)]
    rw [List.length_append, file_header_bytes_length, info_header_bytes_length]
    congr 1
    omega
  refine ⟨_, _, fill_background_buffer rows C ⟨w, h⟩ hd hh, hout, ?_⟩
  intro x y hx hy
  have hr : (List.replicate h (List.replicate w C))[y]? = some (List.replicate w C) :=
    List.getElem?_replicate_of_lt hy
  have hc : (List.replicate w C)[x]? = some C := List.getElem?_replicate_of_lt hx
  obtain ⟨hb, hg, hr3⟩ := flatMap_clr_bytes_getElem _ x _ hc
  have hfl := flatMap_clr_bytes_length (List.replicate w C)
  rw [List.length_replicate] at hfl
  refine ⟨?_, ?_, ?_⟩
  · rw [Nat.add_assoc, hoff, hget y _ hy hr (3 * x) (by omega),
      List.getElem?_append_left (by omega), hb]
  · rw [Nat.add_assoc, Nat.add_assoc, hoff,
      hget y _ hy hr (3 * x + 1) (by omega), List.getElem?_append_left (by omega), hg]
  · rw [Nat.add_assoc, Nat.add_assoc, hoff,
      hget y _ hy hr (3 * x + 2) (by omega), List.getElem?_append_left (by omega), hr3]

theorem filled_buffer_bytes_in_file_witness :
    has_dims [[⟨1, 1, 1⟩, ⟨2, 2, 2⟩, ⟨3, 3, 3⟩], [⟨4, 4, 4⟩, ⟨5, 5, 5⟩, ⟨6, 6, 6⟩]] ⟨3, 2⟩
      ∧ 1 ≤ 3 ∧ 1 ≤ 2
      ∧ ∃ rows' out, fill_background
            (buffer [[⟨1, 1, 1⟩, ⟨2, 2, 2⟩, ⟨3, 3, 3⟩], [⟨4, 4, 4⟩, ⟨5, 5, 5⟩, ⟨6, 6, 6⟩]])
            ⟨255, 0, 254⟩ ⟨3, 2⟩ = some (0, buffer rows')
          ∧ main_write 3 2 (buffer rows') = some out
          ∧ ∀ x y, x < 3 → y < 2 →
              out[54 + y * (3 * 3 + padding 3) + 3 * x]? = some (⟨255, 0, 254⟩ : clr).b
              ∧ out[54 + y * (3 * 3 + padding 3) + 3 * x + 1]? = some (⟨255, 0, 254⟩ : clr).g
              ∧ out[54 + y * (3 * 3 + padding 3) + 3 * x + 2]? = some (⟨255, 0, 254⟩ : clr).r :=
  ⟨by simp [has_dims], by decide, by decide,
    filled_buffer_bytes_in_file 3 2 ⟨255, 0, 254⟩ _ (by simp [has_dims]) (by decide)
      (by decide)⟩

/-- C17: the arithmetic of `main` on two inputs: for width 4 and height 2 the row is 12
bytes, the padding 0 and `file_size` 78; for width 5 and height 1 the row is 15 bytes,
`rem` is 3, the padding 1 and `file_size` 70. -/
theorem header_arithmetic_on_two_inputs :
    (4 * 3 % UINT_RANGE = 12 ∧ rem 4 = 0 ∧ padding 4 = 0 ∧ (fh 4 2).file_size = 78)
      ∧ (5 * 3 % UINT_RANGE = 15 ∧ rem 5 = 3 ∧ padding 5 = 1 ∧ (fh 5 1).file_size = 70) := by
  decide

/-- C18: for every width the padding is 0, 1, 2 or 3, so the write of the padding takes
at most the 3 bytes that `pad` has: it does not read past the end of `pad`, and writes
`padding` zero bytes. -/
theorem padding_write_stays_in_pad (w : Nat) :
    (padding w = 0 ∨ padding w = 1 ∨ padding w = 2 ∨ padding w = 3)
      ∧ padding w ≤ pad.length
      ∧ fwrite_pad (padding w) = some (List.replicate (padding w) 0) := by
  have h := padding_le w
  have hl : pad.length = 3 := rfl
  refine ⟨by omega, by omega, ?_⟩
  unfold fwrite_pad
  rw [if_pos (by omega), pad_take _ h]

/-- C19: for every width `w` the padding is `w mod 4`; it is 0 exactly when `w` is a
multiple of 4; and `rem` is the remainder modulo 4 of the product `w*3` that has not
wrapped around, so the overflow of `w*3` does not change the padding. -/
theorem padding_is_width_mod_four (w : Nat) :
    padding w = w % 4 ∧ (padding w = 0 ↔ 4 ∣ w) ∧ rem w = w * 3 % 4
      ∧ padding w = if w * 3 % 4 ≠ 0 then 4 - w * 3 % 4 else 0 := by
  have hr : rem w = w * 3 % 4 := by rw [rem_eq, Nat.mul_comm]
  have hp : padding w = if w * 3 % 4 ≠ 0 then 4 - w * 3 % 4 else 0 := by
    unfold padding; rw [hr]
  have hm : padding w = w % 4 := by
    rw [hp]; split <;> omega
  exact ⟨hm, by rw [hm]; omega, hr, hp⟩

/-- C20: for a buffer of dimensions `(w, h)` and a side length `s` with `s > w` or
`s > h` (all three `unsigned int` values), `draw_center_square`, whose origin comes from
the wrapping differences, returns and leaves the buffer as it was: either the origin is
outside the buffer, or the far edge is not beyond the origin and no pixel is stored. -/
theorem draw_center_square_oversized_draws_nothing (w h s : Nat) (col : clr)
    (rows : List (List clr)) (hd : has_dims rows ⟨w, h⟩)
    (hw : w < UINT_RANGE) (hh : h < UINT_RANGE) (hs : s < UINT_RANGE)
    (hbig : s > w ∨ s > h) :
    ∃ b, draw_center_square (buffer rows) col s ⟨w, h⟩ = some (b, buffer rows) := by
  cases rows with
  | nil => exact ⟨true, rfl⟩
  | cons r rs =>
    generalize hox : (w + UINT_RANGE - s) % UINT_RANGE / 2 = ox
    generalize hoy : (h + UINT_RANGE - s) % UINT_RANGE / 2 = oy
    have hcall : draw_center_square (buffer (r :: rs)) col s ⟨w, h⟩
        = draw_square ⟨ox, oy⟩ s (buffer (r :: rs)) col ⟨w, h⟩ := by
      simp only [buffer, row_ptrs, List.map_cons]
      simp only [draw_center_square, load_first, hox, hoy]
    rw [hcall]
    by_cases hin : ox < w ∧ oy < h
    · obtain ⟨rows', hs', hd', hpix⟩ :=
        draw_square_buffer ⟨ox, oy⟩ s col ⟨w, h⟩ (r :: rs) hd hin.1 hin.2
      have hempty : min ((ox + s) % UINT_RANGE) w ≤ ox ∨ min ((oy + s) % UINT_RANGE) h ≤ oy := by
        unfold UINT_RANGE at hox hoy hw hh hs ⊢
        omega
      have heq : rows' = r :: rs := by
        apply rows_ext
        · intro j
          rw [row_lengths_of_has_dims rows' ⟨w, h⟩ hd' j,
            row_lengths_of_has_dims (r :: rs) ⟨w, h⟩ hd j]
        · intro x j
          rw [hpix x j, if_neg]
          simp only
          omega
      exact ⟨true, by rw [hs', heq]⟩
    · exact ⟨false, draw_square_outside ⟨ox, oy⟩ s _ col ⟨w, h⟩
        (by show ox ≥ w ∨ oy ≥ h; omega)⟩

theorem draw_center_square_oversized_draws_nothing_witness :
    has_dims [[⟨1, 1, 1⟩, ⟨2, 2, 2⟩], [⟨3, 3, 3⟩, ⟨4, 4, 4⟩]] ⟨2, 2⟩
      ∧ 2 < UINT_RANGE ∧ 2 < UINT_RANGE ∧ 4294967295 < UINT_RANGE
      ∧ (4294967295 > 2 ∨ 4294967295 > 2)
      ∧ ∃ b, draw_center_square (buffer [[⟨1, 1, 1⟩, ⟨2, 2, 2⟩], [⟨3, 3, 3⟩, ⟨4, 4, 4⟩]])
          ⟨0, 255, 0⟩ 4294967295 ⟨2, 2⟩
        = some (b, buffer [[⟨1, 1, 1⟩, ⟨2, 2, 2⟩], [⟨3, 3, 3⟩, ⟨4, 4, 4⟩]]) :=
  ⟨by simp [has_dims], by decide, by decide, by decide, by decide,
    draw_center_square_oversized_draws_nothing 2 2 4294967295 ⟨0, 255, 0⟩ _
      (by simp [has_dims]) (by decide) (by decide) (by decide) (by decide)⟩

/-- C16 (the code at a failing input): with a library whose `malloc` returns `NULL` for
a request of size zero, and for no other, the run for width 0 and height 1 and the run
for width 5 and height 0 return 1 and write nothing, where 54 bytes ought to be
written: the first stops at the allocation of row 0, the second at the allocation of
the array of row pointers. -/
theorem main_zero_dimension_returns_1 :
    main 0 1 ⟨255, 0, 255⟩ ⟨0, 255, 0⟩ 0
        { malloc_null := fun _ n => n == 0, junk := fun _ _ => ⟨0, 0, 0⟩, past := none,
          fopen_null := false }
      = some (1, [])
    ∧ main 5 0 ⟨255, 0, 255⟩ ⟨0, 255, 0⟩ 1
        { malloc_null := fun _ n => n == 0, junk := fun _ _ => ⟨0, 0, 0⟩, past := none,
          fopen_null := false }
      = some (1, []) := by
  decide

end BMP24
